import Mathlib

/-!
Shallow embedding of the travelling-salesman tour-computation core of
`src/bookstore.py`: the `haversine` great-circle distance and the two tour
solvers `NearestNeighbourAlgorithm.compute` and `BruteForceAlgorithm.compute`.

Machine floats are embedded as exact real numbers.  The solver loops are
stated generically over a linear ordered field so that they can also be run
on `ℚ` with a concrete distance function; the program itself is their
instantiation at `ℝ` with `haversine`.  A `none` result models a Python
exception escaping `compute`.
-/

section Solvers

variable {α : Type} [LinearOrderedField α] {β : Type}

/-- A geographic point `(latitude, longitude)` in degrees, as the Python
code's `(lat, lon)` tuples. -/
abbrev GeoPoint (α : Type) : Type := α × α

/-- The running-minimum loop shared by both solvers: starting from an
accumulator `(best, best_d)` — initially `(None, 10**9)` in the code — scan
the list and replace the accumulator whenever the measure `f` of the current
element is strictly below the best value seen so far.  This is the literal
`for ...: if d < best_d: best_d = d; best = ...` loop of both `compute`
methods. -/
def runMin (f : β → α) : Option β × α → List β → Option β × α
  | acc, [] => acc
  | acc, a :: l => runMin f (if f a < acc.2 then (some a, f a) else acc) l

/-- One step of the inner loop of `BruteForceAlgorithm.compute`: the
accumulator `(total, current)` walks to `points[i]`, adding the leg length.
`points[i]` is embedded as `points.getD i (0, 0)`; every index the solvers
use is in range. -/
def tourStep (dist : GeoPoint α → GeoPoint α → α) (points : List (GeoPoint α))
    (acc : α × GeoPoint α) (i : Nat) : α × GeoPoint α :=
  (acc.1 + dist acc.2 (points.getD i (0, 0)), points.getD i (0, 0))

/-- Round-trip length of the index sequence `perm`, exactly as accumulated by
the inner loop of `BruteForceAlgorithm.compute`: `current = start; total = 0`,
walk through `points[i]` for each `i` of `perm`, finally add the leg from the
last position back to `start`. -/
def tourLen (dist : GeoPoint α → GeoPoint α → α) (start : GeoPoint α)
    (points : List (GeoPoint α)) (perm : List Nat) : α :=
  let fin := perm.foldl (tourStep dist points) (0, start)
  fin.1 + dist fin.2 start

/-- Fuel-indexed enumeration of the permutations of `l`, intended for
`n = l.length`.  It models `itertools.permutations`: each element `x` of `l`
in list order heads the block of permutations of the remaining elements, so
for the sorted input `range(n)` the sequences appear in lexicographic order —
the documented emission order of `itertools.permutations` on a sorted
iterable. -/
def permsAux : Nat → List Nat → List (List Nat)
  | 0, _ => [[]]
  | n + 1, l => l.flatMap fun x => (permsAux n (l.erase x)).map fun p => x :: p

/-- `itertools.permutations(l)` as a list of index lists. -/
def permsLex (l : List Nat) : List (List Nat) := permsAux l.length l

/-- The `while unvisited:` loop of `NearestNeighbourAlgorithm.compute`.
`fuel` bounds the number of iterations; since each iteration removes the
selected index from `unvisited`, `points.length` iterations always suffice,
so the fuel-exhaustion branch is unreachable from `computeD`.  The other
`none` branch models the `TypeError` the Python code would raise at
`points[None]` if no candidate ever beat the `10**9` sentinel. -/
def nnGo (dist : GeoPoint α → GeoPoint α → α) (start : GeoPoint α)
    (points : List (GeoPoint α)) :
    Nat → List Nat → GeoPoint α → List Nat → α → Option (List Nat × α)
  | _, [], current, order, total => some (order, total + dist current start)
  | 0, _ :: _, _, _, _ => none
  | fuel + 1, i :: rest, current, order, total =>
    match runMin (fun j => dist current (points.getD j (0, 0))) (none, 10 ^ 9) (i :: rest) with
    | (none, _) => none
    | (some b, d) =>
      nnGo dist start points fuel ((i :: rest).erase b) (points.getD b (0, 0))
        (order ++ [b]) (total + d)

namespace NearestNeighbourAlgorithm

/-- `NearestNeighbourAlgorithm.compute` of `src/bookstore.py`, generic in the
distance function: `unvisited = list(range(len(points)))`, `current = start`,
`order = []`, `total = 0`, then the greedy loop `nnGo`. -/
def computeD (dist : GeoPoint α → GeoPoint α → α) (start : GeoPoint α)
    (points : List (GeoPoint α)) : Option (List Nat × α) :=
  nnGo dist start points points.length (List.range points.length) start [] 0

end NearestNeighbourAlgorithm

namespace BruteForceAlgorithm

/-- `BruteForceAlgorithm.compute` of `src/bookstore.py`, generic in the
distance function: fold the `if total < best_distance` update over every
permutation of `range(len(points))`; the `none` branch models the `TypeError`
of `list(None)` when no permutation beats the `10**9` sentinel. -/
def computeD (dist : GeoPoint α → GeoPoint α → α) (start : GeoPoint α)
    (points : List (GeoPoint α)) : Option (List Nat × α) :=
  match runMin (tourLen dist start points) (none, 10 ^ 9)
      (permsLex (List.range points.length)) with
  | (none, _) => none
  | (some p, d) => some (p, d)

end BruteForceAlgorithm

/-- Modelled from the spec (§4.2), for comparison with the code: "among
unvisited indices, select the one whose GeoPoint is at minimum distance from
the current position (tie-break: lowest original index)".  Returns the index
of the list minimising `(f i, i)` lexicographically, `none` on the empty
list. -/
def specSelect (f : Nat → α) : List Nat → Option Nat
  | [] => none
  | i :: l =>
    match specSelect f l with
    | none => some i
    | some b => if f i < f b ∨ (f i = f b ∧ i < b) then some i else some b

/-- Modelled from the spec (§4.2), for comparison with the code: the greedy
nearest-neighbour loop as the spec words it — repeatedly select the unvisited
index nearest to the current position (ties to the lowest original index),
append it, add the selected leg to the running total, and after all indices
are visited add the leg from the last visited point back to `start`. -/
def specGreedy (dist : GeoPoint α → GeoPoint α → α) (start : GeoPoint α)
    (points : List (GeoPoint α)) :
    Nat → List Nat → GeoPoint α → Option (List Nat × α)
  | _, [], current => some ([], dist current start)
  | 0, _ :: _, _ => none
  | fuel + 1, i :: rest, current =>
    match specSelect (fun j => dist current (points.getD j (0, 0))) (i :: rest) with
    | none => none
    | some b =>
      (specGreedy dist start points fuel ((i :: rest).erase b)
          (points.getD b (0, 0))).map
        fun r => (b :: r.1, dist current (points.getD b (0, 0)) + r.2)

/-- Modelled from the spec (§4.2), for comparison with the code: the whole
heuristic solver as the spec describes it. -/
def specCompute (dist : GeoPoint α → GeoPoint α → α) (start : GeoPoint α)
    (points : List (GeoPoint α)) : Option (List Nat × α) :=
  specGreedy dist start points points.length (List.range points.length) start

end Solvers

/-- `math.radians`: degrees to radians. -/
noncomputable def radians (x : ℝ) : ℝ := x * Real.pi / 180

/-- `math.atan2 y x`: the angle of the ray to `(x, y)`, in `(-π, π]`.
Exact reals have no signed zero, so the `±0.0` distinctions of the float
function collapse; the solvers only ever call it with both arguments
nonnegative. -/
noncomputable def atan2 (y x : ℝ) : ℝ :=
  if 0 < x then Real.arctan (y / x)
  else if x < 0 then
    (if 0 ≤ y then Real.arctan (y / x) + Real.pi else Real.arctan (y / x) - Real.pi)
  else if 0 < y then Real.pi / 2
  else if y < 0 then -(Real.pi / 2)
  else 0

/-- The intermediate quantity `x` of `haversine`:
`sin(dlat/2)**2 + cos(lat1)*cos(lat2)*sin(dlon/2)**2`. -/
noncomputable def havX (a b : GeoPoint ℝ) : ℝ :=
  let lat1 := radians a.1
  let lat2 := radians b.1
  let lon1 := radians a.2
  let lon2 := radians b.2
  let dlat := lat2 - lat1
  let dlon := lon2 - lon1
  Real.sin (dlat / 2) ^ 2 + Real.cos lat1 * Real.cos lat2 * Real.sin (dlon / 2) ^ 2

/-- `haversine` of `src/bookstore.py`: distance in km between `(lat, lon)`
points, `R * 2 * atan2(sqrt(x), sqrt(1 - x))` with `R = 6371`.
Python's `math.sqrt` raises `ValueError` on negative input where `Real.sqrt`
returns `0`; for in-range coordinates both arguments are nonnegative
(`havX_nonneg`, `havX_le_one` below), so the two models agree there. -/
noncomputable def haversine (a b : GeoPoint ℝ) : ℝ :=
  let R : ℝ := 6371
  R * 2 * atan2 (Real.sqrt (havX a b)) (Real.sqrt (1 - havX a b))

/-- The heuristic solver of the program: `NearestNeighbourAlgorithm.compute`,
i.e. the generic loop instantiated with `haversine`. -/
noncomputable def NearestNeighbourAlgorithm.compute :
    GeoPoint ℝ → List (GeoPoint ℝ) → Option (List Nat × ℝ) :=
  NearestNeighbourAlgorithm.computeD haversine

/-- The exact solver of the program: `BruteForceAlgorithm.compute`, i.e. the
generic permutation fold instantiated with `haversine`. -/
noncomputable def BruteForceAlgorithm.compute :
    GeoPoint ℝ → List (GeoPoint ℝ) → Option (List Nat × ℝ) :=
  BruteForceAlgorithm.computeD haversine

section SolverLemmas

variable {α : Type} [LinearOrderedField α] {β : Type}

/-- Characterisation of the shared running-minimum loop: either no element of
`L` beats the initial value `d0` and the accumulator is returned unchanged,
or the result is the first element of `L` attaining the (strict) minimum of
`f` over `L`, paired with that minimum. -/
theorem runMin_cases (f : β → α) (L : List β) (b0 : Option β) (d0 : α) :
    (runMin f (b0, d0) L = (b0, d0) ∧ ∀ a ∈ L, d0 ≤ f a) ∨
    (∃ (k : Nat) (c : β), L[k]? = some c ∧ runMin f (b0, d0) L = (some c, f c) ∧ f c < d0 ∧
      (∀ a ∈ L, f c ≤ f a) ∧ ∀ (j : Nat) (e : β), j < k → L[j]? = some e → f c < f e) := by
  induction L generalizing b0 d0 with
  | nil =>
    left
    exact ⟨rfl, by simp⟩
  | cons a l ih =>
    by_cases h : f a < d0
    · have hstep : runMin f (b0, d0) (a :: l) = runMin f (some a, f a) l := by
        simp [runMin, h]
      rcases ih (some a) (f a) with ⟨heq, hall⟩ | ⟨k, c, hk, heq, hlt, hmin, hfirst⟩
      · right
        refine ⟨0, a, List.getElem?_cons_zero, ?_, h, ?_, ?_⟩
        · rw [hstep, heq]
        · intro x hx
          rcases List.mem_cons.mp hx with rfl | hx
          · exact le_refl _
          · exact hall x hx
        · intro j e hj _
          exact absurd hj (Nat.not_lt_zero j)
      · right
        refine ⟨k + 1, c, by simpa using hk, ?_, lt_trans hlt h, ?_, ?_⟩
        · rw [hstep, heq]
        · intro x hx
          rcases List.mem_cons.mp hx with rfl | hx
          · exact le_of_lt hlt
          · exact hmin x hx
        · intro j e hj hje
          cases j with
          | zero =>
            simp only [List.getElem?_cons_zero, Option.some.injEq] at hje
            subst hje
            exact hlt
          | succ j =>
            exact hfirst j e (Nat.lt_of_succ_lt_succ hj) (by simpa using hje)
    · have hstep : runMin f (b0, d0) (a :: l) = runMin f (b0, d0) l := by
        simp [runMin, h]
      have hd0a : d0 ≤ f a := le_of_not_lt h
      rcases ih b0 d0 with ⟨heq, hall⟩ | ⟨k, c, hk, heq, hlt, hmin, hfirst⟩
      · left
        refine ⟨by rw [hstep, heq], ?_⟩
        intro x hx
        rcases List.mem_cons.mp hx with rfl | hx
        · exact hd0a
        · exact hall x hx
      · right
        refine ⟨k + 1, c, by simpa using hk, by rw [hstep, heq], hlt, ?_, ?_⟩
        · intro x hx
          rcases List.mem_cons.mp hx with rfl | hx
          · exact le_of_lt (lt_of_lt_of_le hlt hd0a)
          · exact hmin x hx
        · intro j e hj hje
          cases j with
          | zero =>
            simp only [List.getElem?_cons_zero, Option.some.injEq] at hje
            subst hje
            exact lt_of_lt_of_le hlt hd0a
          | succ j =>
            exact hfirst j e (Nat.lt_of_succ_lt_succ hj) (by simpa using hje)

end SolverLemmas

section PermLemmas

/-- Once the fuel equals the length, the fuel-indexed enumeration contains
exactly the permutations of the input list. -/
theorem mem_permsAux {n : Nat} : ∀ {l q : List Nat}, l.length = n →
    (q ∈ permsAux n l ↔ q.Perm l) := by
  induction n with
  | zero =>
    intro l q hl
    have hnil : l = [] := List.length_eq_zero.mp hl
    subst hnil
    constructor
    · intro hq
      simp only [permsAux, List.mem_singleton] at hq
      subst hq
      exact List.Perm.refl []
    · intro hq
      have hq' : q = [] := hq.eq_nil
      subst hq'
      simp [permsAux]
  | succ n ih =>
    intro l q hl
    constructor
    · intro hq
      simp only [permsAux, List.mem_flatMap, List.mem_map] at hq
      obtain ⟨x, hx, p, hp, rfl⟩ := hq
      have hlen : (l.erase x).length = n := by
        rw [List.length_erase_of_mem hx, hl]
        rfl
      exact ((ih hlen).mp hp).cons x |>.trans (List.perm_cons_erase hx).symm
    · intro hq
      cases q with
      | nil =>
        have h0 := hq.length_eq
        rw [hl] at h0
        exact absurd h0 (by simp)
      | cons x p =>
        have hx : x ∈ l := hq.mem_iff.mp (List.mem_cons_self x p)
        have hqe : p.Perm (l.erase x) := by
          have h := hq.erase x
          rwa [List.erase_cons_head] at h
        have hlen : (l.erase x).length = n := by
          rw [List.length_erase_of_mem hx, hl]
          rfl
        simp only [permsAux, List.mem_flatMap, List.mem_map]
        exact ⟨x, hx, p, (ih hlen).mpr hqe, rfl⟩

/-- Membership in `permsLex` is exactly being a permutation of the input. -/
theorem mem_permsLex {l q : List Nat} : q ∈ permsLex l ↔ q.Perm l :=
  mem_permsAux rfl

theorem self_mem_permsLex (l : List Nat) : l ∈ permsLex l :=
  mem_permsLex.mpr (List.Perm.refl l)

end PermLemmas

section TourLenLemmas

variable {α : Type} [LinearOrderedField α]

/-- Head-first restatement of the round-trip accumulation, convenient for
induction: the legs from `current` through the points of `perm`, then the leg
back to `start`. -/
def tourLenFrom (dist : GeoPoint α → GeoPoint α → α) (start : GeoPoint α)
    (points : List (GeoPoint α)) : GeoPoint α → List Nat → α
  | current, [] => dist current start
  | current, i :: perm =>
    dist current (points.getD i (0, 0)) +
      tourLenFrom dist start points (points.getD i (0, 0)) perm

theorem foldl_tourStep (dist : GeoPoint α → GeoPoint α → α) (start : GeoPoint α)
    (points : List (GeoPoint α)) :
    ∀ (perm : List Nat) (total : α) (current : GeoPoint α),
      (perm.foldl (tourStep dist points) (total, current)).1 +
          dist (perm.foldl (tourStep dist points) (total, current)).2 start
        = total + tourLenFrom dist start points current perm := by
  intro perm
  induction perm with
  | nil =>
    intro total current
    simp [tourLenFrom]
  | cons i p ih =>
    intro total current
    simp only [List.foldl_cons, tourStep]
    rw [ih]
    simp only [tourLenFrom]
    ring

/-- The code's running-total accumulation agrees with the head-first
restatement. -/
theorem tourLen_eq_from (dist : GeoPoint α → GeoPoint α → α) (start : GeoPoint α)
    (points : List (GeoPoint α)) (perm : List Nat) :
    tourLen dist start points perm = tourLenFrom dist start points start perm := by
  have h := foldl_tourStep dist start points perm 0 start
  simpa [tourLen] using h

theorem tourLenFrom_nonneg (dist : GeoPoint α → GeoPoint α → α) (start : GeoPoint α)
    (points : List (GeoPoint α)) (h0 : ∀ p q : GeoPoint α, 0 ≤ dist p q) :
    ∀ (perm : List Nat) (current : GeoPoint α),
      0 ≤ tourLenFrom dist start points current perm := by
  intro perm
  induction perm with
  | nil =>
    intro c
    simpa [tourLenFrom] using h0 c start
  | cons i p ih =>
    intro c
    simp only [tourLenFrom]
    exact add_nonneg (h0 _ _) (ih _)

theorem tourLenFrom_le (dist : GeoPoint α → GeoPoint α → α) (start : GeoPoint α)
    (points : List (GeoPoint α)) (B : α) (hB : ∀ p q : GeoPoint α, dist p q ≤ B) :
    ∀ (perm : List Nat) (current : GeoPoint α),
      tourLenFrom dist start points current perm ≤ ((perm.length : α) + 1) * B := by
  intro perm
  induction perm with
  | nil =>
    intro c
    simpa [tourLenFrom] using hB c start
  | cons i p ih =>
    intro c
    simp only [tourLenFrom, List.length_cons]
    have h1 := hB c (points.getD i (0, 0))
    have h2 := ih (points.getD i (0, 0))
    push_cast
    ring_nf
    ring_nf at h2
    linarith

end TourLenLemmas

section NNLemmas

variable {α : Type} [LinearOrderedField α]

/-- The nearest-neighbour loop always terminates with a result once the fuel
covers the number of unvisited indices, provided every distance beats the
`10**9` sentinel: the visiting order extends `order` by a permutation of the
unvisited indices, and the total grows by exactly the round trip from
`current` through the appended indices and back to `start`. -/
theorem nnGo_spec (dist : GeoPoint α → GeoPoint α → α) (start : GeoPoint α)
    (points : List (GeoPoint α)) (hS : ∀ p q : GeoPoint α, dist p q < 10 ^ 9) :
    ∀ (fuel : Nat) (unvisited : List Nat) (current : GeoPoint α)
      (order : List Nat) (total : α), unvisited.length ≤ fuel →
      ∃ Δ : List Nat,
        nnGo dist start points fuel unvisited current order total
            = some (order ++ Δ, total + tourLenFrom dist start points current Δ) ∧
          Δ.Perm unvisited := by
  intro fuel
  induction fuel with
  | zero =>
    intro unvisited current order total hle
    have hnil : unvisited = [] := List.length_eq_zero.mp (Nat.le_zero.mp hle)
    subst hnil
    exact ⟨[], by simp [nnGo, tourLenFrom], List.Perm.refl []⟩
  | succ fuel ih =>
    intro unvisited current order total hle
    match unvisited with
    | [] => exact ⟨[], by simp [nnGo, tourLenFrom], List.Perm.refl []⟩
    | i :: rest =>
      rcases runMin_cases (fun j => dist current (points.getD j (0, 0))) (i :: rest)
          none (10 ^ 9) with ⟨_, hall⟩ | ⟨k, c, hk, heq, _, _, _⟩
      · exact absurd (hall i (List.mem_cons_self i rest)) (not_le.mpr (hS current _))
      · have hcmem : c ∈ i :: rest := List.getElem?_mem hk
        have hlen : ((i :: rest).erase c).length ≤ fuel := by
          rw [List.length_erase_of_mem hcmem]
          exact Nat.le_of_succ_le_succ (by simpa using hle)
        obtain ⟨Δ, hΔ, hperm⟩ := ih ((i :: rest).erase c) (points.getD c (0, 0))
          (order ++ [c]) (total + dist current (points.getD c (0, 0))) hlen
        refine ⟨c :: Δ, ?_, (hperm.cons c).trans (List.perm_cons_erase hcmem).symm⟩
        have hstep : nnGo dist start points (fuel + 1) (i :: rest) current order total
            = nnGo dist start points fuel ((i :: rest).erase c) (points.getD c (0, 0))
                (order ++ [c]) (total + dist current (points.getD c (0, 0))) := by
          simp only [nnGo]
          rw [heq]
        rw [hstep, hΔ]
        simp only [tourLenFrom, List.append_assoc, List.singleton_append]
        rw [add_assoc]

/-- `NearestNeighbourAlgorithm.computeD` always succeeds when every distance
beats the sentinel, returning a permutation of all indices together with its
round-trip length. -/
theorem nn_computeD_spec (dist : GeoPoint α → GeoPoint α → α) (start : GeoPoint α)
    (points : List (GeoPoint α)) (hS : ∀ p q : GeoPoint α, dist p q < 10 ^ 9) :
    ∃ Δ : List Nat,
      NearestNeighbourAlgorithm.computeD dist start points
          = some (Δ, tourLenFrom dist start points start Δ) ∧
        Δ.Perm (List.range points.length) := by
  obtain ⟨Δ, h, hp⟩ := nnGo_spec dist start points hS points.length
    (List.range points.length) start [] 0 (by simp)
  exact ⟨Δ, by simpa [NearestNeighbourAlgorithm.computeD] using h, hp⟩

end NNLemmas

section SpecSelectLemmas

variable {α : Type} [LinearOrderedField α]

/-- On a nonempty list the spec-side selector always selects something. -/
theorem specSelect_cons_exists (f : Nat → α) (i : Nat) (l : List Nat) :
    ∃ b, specSelect f (i :: l) = some b := by
  simp only [specSelect]
  cases specSelect f l with
  | none => exact ⟨i, rfl⟩
  | some c =>
    by_cases h : f i < f c ∨ (f i = f c ∧ i < c)
    · exact ⟨i, by simp [h]⟩
    · exact ⟨c, by simp [h]⟩

/-- The spec-side selector returns an element of the list that
lexicographically minimises `(f i, i)`: minimum measure first, lowest index
among ties. -/
theorem specSelect_spec (f : Nat → α) :
    ∀ (l : List Nat) (b : Nat), specSelect f l = some b →
      b ∈ l ∧ ∀ i ∈ l, f b < f i ∨ (f b = f i ∧ b ≤ i) := by
  intro l
  induction l with
  | nil =>
    intro b hb
    exact absurd hb (by simp [specSelect])
  | cons i l ih =>
    intro b hb
    simp only [specSelect] at hb
    split at hb
    · next hsel =>
      injection hb with hb
      subst hb
      cases l with
      | nil =>
        refine ⟨List.mem_cons_self _ _, ?_⟩
        intro x hx
        rcases List.mem_cons.mp hx with rfl | hx
        · exact Or.inr ⟨rfl, le_refl _⟩
        · exact absurd hx (List.not_mem_nil x)
      | cons j l2 =>
        obtain ⟨b2, hb2⟩ := specSelect_cons_exists f j l2
        rw [hsel] at hb2
        exact absurd hb2 (by simp)
    · next c hsel =>
      obtain ⟨hcmem, hcmin⟩ := ih c hsel
      split at hb
      · next h =>
        injection hb with hb
        subst hb
        refine ⟨List.mem_cons_self _ _, ?_⟩
        intro x hx
        rcases List.mem_cons.mp hx with rfl | hx
        · exact Or.inr ⟨rfl, le_refl _⟩
        · rcases h with h | ⟨heq, hlt⟩
          · rcases hcmin x hx with hc | ⟨hceq, _⟩
            · exact Or.inl (lt_trans h hc)
            · exact Or.inl (hceq ▸ h)
          · rcases hcmin x hx with hc | ⟨hceq, hcle⟩
            · exact Or.inl (heq ▸ hc)
            · exact Or.inr ⟨heq.trans hceq, le_of_lt (lt_of_lt_of_le hlt hcle)⟩
      · next h =>
        injection hb with hb
        subst hb
        push_neg at h
        obtain ⟨h1, h2⟩ := h
        refine ⟨List.mem_cons_of_mem _ hcmem, ?_⟩
        intro x hx
        rcases List.mem_cons.mp hx with rfl | hx
        · rcases lt_or_eq_of_le h1 with hlt | heqq
          · exact Or.inl hlt
          · exact Or.inr ⟨heqq, h2 heqq.symm⟩
        · exact hcmin x hx

/-- A list has at most one element lexicographically minimising `(f i, i)`. -/
theorem lexmin_unique (f : Nat → α) {l : List Nat} {b c : Nat}
    (hbmem : b ∈ l) (hbmin : ∀ i ∈ l, f b < f i ∨ (f b = f i ∧ b ≤ i))
    (hcmem : c ∈ l) (hcmin : ∀ i ∈ l, f c < f i ∨ (f c = f i ∧ c ≤ i)) :
    b = c := by
  rcases hbmin c hcmem with h1 | ⟨he1, hle1⟩
  · rcases hcmin b hbmem with h2 | ⟨he2, _⟩
    · exact absurd (lt_trans h1 h2) (lt_irrefl _)
    · rw [he2] at h1
      exact absurd h1 (lt_irrefl _)
  · rcases hcmin b hbmem with h2 | ⟨_, hle2⟩
    · rw [he1] at h2
      exact absurd h2 (lt_irrefl _)
    · exact le_antisymm hle1 hle2

/-- On a strictly ascending list, the first strict argmin found by the code's
running-minimum loop is the lexicographic minimiser of `(f i, i)`: the spec's
"minimum distance, ties to the lowest original index" selection. -/
theorem runMin_lexmin (f : Nat → α) {l : List Nat} (hsort : l.Pairwise (· < ·))
    {k : Nat} {c : Nat} (hk : l[k]? = some c)
    (hmin : ∀ a ∈ l, f c ≤ f a)
    (hfirst : ∀ (j : Nat) (e : Nat), j < k → l[j]? = some e → f c < f e) :
    ∀ i ∈ l, f c < f i ∨ (f c = f i ∧ c ≤ i) := by
  intro i hi
  rcases lt_or_eq_of_le (hmin i hi) with hlt | heq
  · exact Or.inl hlt
  · refine Or.inr ⟨heq, ?_⟩
    obtain ⟨j, hj, hji⟩ := List.getElem_of_mem hi
    obtain ⟨hkl, hkc⟩ := List.getElem?_eq_some.mp hk
    rcases lt_trichotomy j k with hjk | hjk | hjk
    · have hci := hfirst j i hjk (by rw [← hji]; exact List.getElem?_eq_getElem hj)
      rw [← heq] at hci
      exact absurd hci (lt_irrefl _)
    · subst hjk
      rw [hkc] at hji
      exact le_of_eq hji
    · have hci := List.pairwise_iff_getElem.mp hsort k j hkl hj hjk
      rw [hkc, hji] at hci
      exact le_of_lt hci

end SpecSelectLemmas

section EquivLemmas

variable {α : Type} [LinearOrderedField α]

/-- On a strictly ascending unvisited list, the code's loop and the
spec-modelled greedy agree step by step: the spec greedy succeeds and the
code returns its order appended to `order` and its total added to `total`. -/
theorem nnGo_eq_specGreedy (dist : GeoPoint α → GeoPoint α → α) (start : GeoPoint α)
    (points : List (GeoPoint α)) (hS : ∀ p q : GeoPoint α, dist p q < 10 ^ 9) :
    ∀ (fuel : Nat) (unvisited : List Nat) (current : GeoPoint α)
      (order : List Nat) (total : α),
      unvisited.length ≤ fuel → unvisited.Pairwise (· < ·) →
      ∃ r : List Nat × α,
        specGreedy dist start points fuel unvisited current = some r ∧
          nnGo dist start points fuel unvisited current order total
            = some (order ++ r.1, total + r.2) := by
  intro fuel
  induction fuel with
  | zero =>
    intro unvisited current order total hle _
    have hnil : unvisited = [] := List.length_eq_zero.mp (Nat.le_zero.mp hle)
    subst hnil
    exact ⟨([], dist current start), by simp [specGreedy], by simp [nnGo]⟩
  | succ fuel ih =>
    intro unvisited current order total hle hsort
    match unvisited with
    | [] => exact ⟨([], dist current start), by simp [specGreedy], by simp [nnGo]⟩
    | i :: rest =>
      rcases runMin_cases (fun j => dist current (points.getD j (0, 0))) (i :: rest)
          none (10 ^ 9) with ⟨_, hall⟩ | ⟨k, c, hk, heq, _, hmin, hfirst⟩
      · exact absurd (hall i (List.mem_cons_self i rest)) (not_le.mpr (hS current _))
      · have hcmem : c ∈ i :: rest := List.getElem?_mem hk
        have hclex := runMin_lexmin (fun j => dist current (points.getD j (0, 0)))
          hsort hk hmin hfirst
        obtain ⟨b, hbsel⟩ :=
          specSelect_cons_exists (fun j => dist current (points.getD j (0, 0))) i rest
        obtain ⟨hbmem, hblex⟩ :=
          specSelect_spec (fun j => dist current (points.getD j (0, 0))) (i :: rest) b hbsel
        have hbc : b = c :=
          lexmin_unique (fun j => dist current (points.getD j (0, 0)))
            hbmem hblex hcmem hclex
        subst hbc
        have hsort2 : ((i :: rest).erase b).Pairwise (· < ·) :=
          List.Pairwise.sublist (List.erase_sublist b (i :: rest)) hsort
        have hlen : ((i :: rest).erase b).length ≤ fuel := by
          rw [List.length_erase_of_mem hcmem]
          exact Nat.le_of_succ_le_succ (by simpa using hle)
        obtain ⟨r, hspec, hnn⟩ := ih ((i :: rest).erase b) (points.getD b (0, 0))
          (order ++ [b]) (total + dist current (points.getD b (0, 0))) hlen hsort2
        refine ⟨(b :: r.1, dist current (points.getD b (0, 0)) + r.2), ?_, ?_⟩
        · simp only [specGreedy]
          rw [hbsel]
          show (specGreedy dist start points fuel ((i :: rest).erase b)
                (points.getD b (0, 0))).map
              (fun r => (b :: r.1, dist current (points.getD b (0, 0)) + r.2))
            = some (b :: r.1, dist current (points.getD b (0, 0)) + r.2)
          rw [hspec]
          rfl
        · simp only [nnGo]
          rw [heq]
          show nnGo dist start points fuel ((i :: rest).erase b) (points.getD b (0, 0))
              (order ++ [b]) (total + dist current (points.getD b (0, 0)))
            = some (order ++ b :: r.1,
                total + (dist current (points.getD b (0, 0)) + r.2))
          rw [hnn, List.append_assoc, List.singleton_append, add_assoc]

/-- `NearestNeighbourAlgorithm.computeD` coincides with the spec-modelled
greedy whenever every distance beats the `10**9` sentinel. -/
theorem computeD_eq_specCompute (dist : GeoPoint α → GeoPoint α → α)
    (start : GeoPoint α) (points : List (GeoPoint α))
    (hS : ∀ p q : GeoPoint α, dist p q < 10 ^ 9) :
    NearestNeighbourAlgorithm.computeD dist start points = specCompute dist start points := by
  obtain ⟨r, hspec, hnn⟩ := nnGo_eq_specGreedy dist start points hS points.length
    (List.range points.length) start [] 0 (by simp) (List.pairwise_lt_range _)
  rw [NearestNeighbourAlgorithm.computeD, specCompute, hspec, hnn]
  simp

/-- Characterisation of `BruteForceAlgorithm.computeD`: as soon as one
permutation has round-trip length below the `10**9` sentinel, the solver
returns the first permutation (in `permsLex` enumeration order) attaining the
minimum round-trip length over all permutations of the index range. -/
theorem bf_computeD_spec (dist : GeoPoint α → GeoPoint α → α) (start : GeoPoint α)
    (points : List (GeoPoint α))
    (hex : ∃ q : List Nat, q.Perm (List.range points.length) ∧
      tourLen dist start points q < 10 ^ 9) :
    ∃ (p : List Nat) (k : Nat),
      BruteForceAlgorithm.computeD dist start points
          = some (p, tourLen dist start points p) ∧
        p.Perm (List.range points.length) ∧
        (∀ q : List Nat, q.Perm (List.range points.length) →
          tourLen dist start points p ≤ tourLen dist start points q) ∧
        (permsLex (List.range points.length))[k]? = some p ∧
        ∀ (j : Nat) (q : List Nat), j < k →
          (permsLex (List.range points.length))[j]? = some q →
          tourLen dist start points p < tourLen dist start points q := by
  obtain ⟨q0, hq0p, hq0⟩ := hex
  rcases runMin_cases (tourLen dist start points) (permsLex (List.range points.length))
      none (10 ^ 9) with ⟨_, hall⟩ | ⟨k, c, hk, heq, _, hmin, hfirst⟩
  · exact absurd (hall q0 (mem_permsLex.mpr hq0p)) (not_le.mpr hq0)
  · refine ⟨c, k, ?_, mem_permsLex.mp (List.getElem?_mem hk), ?_, hk, hfirst⟩
    · simp only [BruteForceAlgorithm.computeD]
      rw [heq]
    · intro q hq
      exact hmin q (mem_permsLex.mpr hq)

end EquivLemmas

section HaversineLemmas

theorem arctan_nonneg {t : ℝ} (ht : 0 ≤ t) : 0 ≤ Real.arctan t := by
  have h := Real.arctan_strictMono.monotone ht
  rwa [Real.arctan_zero] at h

/-- In the closed first quadrant `atan2` is nonnegative. -/
theorem atan2_nonneg {y x : ℝ} (hy : 0 ≤ y) (hx : 0 ≤ x) : 0 ≤ atan2 y x := by
  unfold atan2
  rcases lt_or_eq_of_le hx with hx1 | hx1
  · rw [if_pos hx1]
    exact arctan_nonneg (div_nonneg hy (le_of_lt hx1))
  · rw [if_neg (by rw [← hx1]; exact lt_irrefl 0),
      if_neg (by rw [← hx1]; exact lt_irrefl 0)]
    rcases lt_or_eq_of_le hy with hy1 | hy1
    · rw [if_pos hy1]
      positivity
    · rw [if_neg (by rw [← hy1]; exact lt_irrefl 0),
        if_neg (by rw [← hy1]; exact lt_irrefl 0)]

/-- In the closed first quadrant `atan2` is at most `π / 2`. -/
theorem atan2_le_half_pi {y x : ℝ} (hy : 0 ≤ y) (hx : 0 ≤ x) :
    atan2 y x ≤ Real.pi / 2 := by
  unfold atan2
  rcases lt_or_eq_of_le hx with hx1 | hx1
  · rw [if_pos hx1]
    exact le_of_lt (Real.arctan_lt_pi_div_two _)
  · rw [if_neg (by rw [← hx1]; exact lt_irrefl 0),
      if_neg (by rw [← hx1]; exact lt_irrefl 0)]
    rcases lt_or_eq_of_le hy with hy1 | hy1
    · rw [if_pos hy1]
    · rw [if_neg (by rw [← hy1]; exact lt_irrefl 0),
        if_neg (by rw [← hy1]; exact lt_irrefl 0)]
      positivity

/-- The haversine distance is nonnegative for every pair of real points (in
the exact-real model, both `sqrt` arguments are clamped at `0`). -/
theorem haversine_nonneg (a b : GeoPoint ℝ) : 0 ≤ haversine a b := by
  simp only [haversine]
  have h := atan2_nonneg (Real.sqrt_nonneg (havX a b)) (Real.sqrt_nonneg (1 - havX a b))
  nlinarith

/-- The haversine distance never exceeds `6371 * π ≤ 20069` km — half the
spherical circumference with the code's Earth radius. -/
theorem haversine_le_bound (a b : GeoPoint ℝ) : haversine a b ≤ 20069 := by
  simp only [haversine]
  have h := atan2_le_half_pi (Real.sqrt_nonneg (havX a b)) (Real.sqrt_nonneg (1 - havX a b))
  have hπ : Real.pi < 3.15 := Real.pi_lt_d2
  nlinarith

/-- Every haversine distance beats the `10**9` sentinel of the solver
loops. -/
theorem haversine_lt_sentinel (a b : GeoPoint ℝ) : haversine a b < 10 ^ 9 :=
  lt_of_le_of_lt (haversine_le_bound a b) (by norm_num)

/-- The intermediate quantity of the haversine formula is symmetric in its
two points. -/
theorem havX_symm (a b : GeoPoint ℝ) : havX a b = havX b a := by
  simp only [havX]
  have h1 : (radians a.1 - radians b.1) / 2 = -((radians b.1 - radians a.1) / 2) := by
    ring
  have h2 : (radians a.2 - radians b.2) / 2 = -((radians b.2 - radians a.2) / 2) := by
    ring
  rw [h1, h2, Real.sin_neg, Real.sin_neg]
  ring

theorem haversine_symm (a b : GeoPoint ℝ) : haversine a b = haversine b a := by
  simp only [haversine]
  rw [havX_symm]

theorem havX_self (a : GeoPoint ℝ) : havX a a = 0 := by
  simp [havX]

theorem haversine_self (a : GeoPoint ℝ) : haversine a a = 0 := by
  simp only [haversine, havX_self]
  have h : atan2 (Real.sqrt 0) (Real.sqrt (1 - 0)) = 0 := by
    rw [Real.sqrt_zero, sub_zero, Real.sqrt_one]
    unfold atan2
    rw [if_pos one_pos]
    norm_num [Real.arctan_zero]
  rw [h]
  ring

theorem cos_radians_nonneg {t : ℝ} (ht : |t| ≤ 90) : 0 ≤ Real.cos (radians t) := by
  obtain ⟨h1, h2⟩ := abs_le.mp ht
  apply Real.cos_nonneg_of_mem_Icc
  apply Set.mem_Icc.mpr
  constructor
  · show -(Real.pi / 2) ≤ t * Real.pi / 180
    nlinarith [Real.pi_pos, mul_nonneg (by linarith : (0:ℝ) ≤ t + 90) Real.pi_pos.le]
  · show t * Real.pi / 180 ≤ Real.pi / 2
    nlinarith [Real.pi_pos, mul_nonneg (by linarith : (0:ℝ) ≤ 90 - t) Real.pi_pos.le]

/-- For latitudes within `±90°` the intermediate quantity is nonnegative —
the first square-root argument of `haversine` is fine. -/
theorem havX_nonneg {a b : GeoPoint ℝ} (ha : |a.1| ≤ 90) (hb : |b.1| ≤ 90) :
    0 ≤ havX a b := by
  simp only [havX]
  exact add_nonneg (sq_nonneg _)
    (mul_nonneg (mul_nonneg (cos_radians_nonneg ha) (cos_radians_nonneg hb)) (sq_nonneg _))

/-- For latitudes within `±90°` the intermediate quantity is at most `1` —
the second square-root argument `1 - x` of `haversine` is fine. -/
theorem havX_le_one {a b : GeoPoint ℝ} (ha : |a.1| ≤ 90) (hb : |b.1| ≤ 90) :
    havX a b ≤ 1 := by
  simp only [havX]
  have hc12 : 0 ≤ Real.cos (radians a.1) * Real.cos (radians b.1) :=
    mul_nonneg (cos_radians_nonneg ha) (cos_radians_nonneg hb)
  have hhalf : Real.sin ((radians b.1 - radians a.1) / 2) ^ 2
      = (1 - Real.cos (radians b.1 - radians a.1)) / 2 := by
    have h := Real.cos_two_mul ((radians b.1 - radians a.1) / 2)
    have h2 : 2 * ((radians b.1 - radians a.1) / 2) = radians b.1 - radians a.1 := by
      ring
    rw [h2] at h
    nlinarith [Real.sin_sq_add_cos_sq ((radians b.1 - radians a.1) / 2)]
  have hsub := Real.cos_sub (radians b.1) (radians a.1)
  have hadd := Real.cos_add (radians a.1) (radians b.1)
  have hle1 : Real.cos (radians a.1 + radians b.1) ≤ 1 := Real.cos_le_one _
  have ht := Real.sin_sq_le_one ((radians b.2 - radians a.2) / 2)
  nlinarith [mul_le_of_le_one_right hc12 ht]

end HaversineLemmas

section ProgramLemmas

/-- Round trips of at most `40000` legs stay below the `10**9` sentinel,
since every haversine leg is at most `20069` km. -/
theorem tourLen_lt_sentinel (start : GeoPoint ℝ) (points : List (GeoPoint ℝ))
    (q : List Nat) (hq : q.length ≤ 40000) :
    tourLen haversine start points q < 10 ^ 9 := by
  rw [tourLen_eq_from]
  have h := tourLenFrom_le haversine start points 20069 haversine_le_bound q start
  have hlen : (q.length : ℝ) ≤ 40000 := by exact_mod_cast hq
  have h2 : ((q.length : ℝ) + 1) * 20069 ≤ 40001 * 20069 := by nlinarith
  calc tourLenFrom haversine start points start q
      ≤ ((q.length : ℝ) + 1) * 20069 := h
    _ ≤ 40001 * 20069 := h2
    _ < 10 ^ 9 := by norm_num

theorem tourLen_nonneg (start : GeoPoint ℝ) (points : List (GeoPoint ℝ))
    (q : List Nat) : 0 ≤ tourLen haversine start points q := by
  rw [tourLen_eq_from]
  exact tourLenFrom_nonneg haversine start points haversine_nonneg q start

/-- The heuristic solver on the empty destination list: the loop body never
runs and the final leg is `haversine start start = 0`. -/
theorem nn_compute_empty (start : GeoPoint ℝ) :
    NearestNeighbourAlgorithm.compute start [] = some ([], 0) := by
  show NearestNeighbourAlgorithm.computeD haversine start [] = some ([], 0)
  unfold NearestNeighbourAlgorithm.computeD
  simp [nnGo, haversine_self]

/-- The exhaustive solver on the empty destination list: the single empty
permutation has total `haversine start start = 0`, which beats the sentinel,
so `([], 0)` is returned. -/
theorem bf_compute_empty (start : GeoPoint ℝ) :
    BruteForceAlgorithm.compute start [] = some ([], 0) := by
  have h2 : tourLen haversine start [] [] = 0 := by
    simp [tourLen, tourStep, haversine_self]
  have hperms : permsLex (List.range 0) = [[]] := by
    rw [List.range_zero]
    rfl
  have h3 : runMin (tourLen haversine start []) (none, (10:ℝ) ^ 9) [[]]
      = (some [], 0) := by
    simp only [runMin, h2]
    norm_num
  show BruteForceAlgorithm.computeD haversine start [] = some ([], 0)
  unfold BruteForceAlgorithm.computeD
  rw [List.length_nil, hperms, h3]

/-- The heuristic solver on a single destination. -/
theorem nn_compute_single (start p : GeoPoint ℝ) :
    NearestNeighbourAlgorithm.compute start [p]
      = some ([0], haversine start p + haversine p start) := by
  have hrm : runMin (fun j => haversine start ([p].getD j (0, 0))) (none, (10:ℝ) ^ 9)
      [0] = (some 0, haversine start ([p].getD 0 (0, 0))) := by
    simp only [runMin]
    rw [if_pos (haversine_lt_sentinel start ([p].getD 0 (0, 0)))]
  show NearestNeighbourAlgorithm.computeD haversine start [p]
      = some ([0], haversine start p + haversine p start)
  unfold NearestNeighbourAlgorithm.computeD
  rw [show ([p] : List (GeoPoint ℝ)).length = 1 from rfl,
    show List.range 1 = [0] from rfl]
  show nnGo haversine start [p] (0 + 1) [0] start [] 0 = _
  simp only [nnGo]
  rw [hrm]
  show nnGo haversine start [p] 0 ([0].erase 0) ([p].getD 0 (0, 0)) ([] ++ [0])
      (0 + haversine start ([p].getD 0 (0, 0))) = _
  norm_num [nnGo]

/-- The exhaustive solver on a single destination. -/
theorem bf_compute_single (start p : GeoPoint ℝ) :
    BruteForceAlgorithm.compute start [p]
      = some ([0], haversine start p + haversine p start) := by
  have hperm : permsLex (List.range 1) = [[0]] := by
    rw [show List.range 1 = [0] from rfl]
    rfl
  have htl : tourLen haversine start [p] [0]
      = haversine start p + haversine p start := by
    simp [tourLen, tourStep]
  have hrm : runMin (tourLen haversine start [p]) (none, (10:ℝ) ^ 9) [[0]]
      = (some [0], tourLen haversine start [p] [0]) := by
    simp only [runMin]
    rw [if_pos (tourLen_lt_sentinel start [p] [0] (by norm_num))]
  show BruteForceAlgorithm.computeD haversine start [p] = _
  unfold BruteForceAlgorithm.computeD
  rw [show ([p] : List (GeoPoint ℝ)).length = 1 from rfl, hperm, hrm, htl]

/-- Any total returned by the heuristic solver is nonnegative. -/
theorem nn_total_nonneg (start : GeoPoint ℝ) (points : List (GeoPoint ℝ))
    (o : List Nat) (t : ℝ)
    (h : NearestNeighbourAlgorithm.computeD haversine start points = some (o, t)) :
    0 ≤ t := by
  obtain ⟨Δ, hΔ, _⟩ := nn_computeD_spec haversine start points haversine_lt_sentinel
  rw [hΔ] at h
  injection h with h
  rw [Prod.mk.injEq] at h
  obtain ⟨_, h2⟩ := h
  rw [← h2]
  exact tourLenFrom_nonneg haversine start points haversine_nonneg Δ start

/-- Any total returned by the exhaustive solver is nonnegative. -/
theorem bf_total_nonneg (start : GeoPoint ℝ) (points : List (GeoPoint ℝ))
    (o : List Nat) (t : ℝ)
    (h : BruteForceAlgorithm.computeD haversine start points = some (o, t)) :
    0 ≤ t := by
  rcases runMin_cases (tourLen haversine start points)
      (permsLex (List.range points.length)) none (10 ^ 9)
    with ⟨heq, _⟩ | ⟨k, c, _, heq, _, _, _⟩
  · unfold BruteForceAlgorithm.computeD at h
    rw [heq] at h
    have h2 : (none : Option (List Nat × ℝ)) = some (o, t) := h
    exact absurd h2 (by simp)
  · unfold BruteForceAlgorithm.computeD at h
    rw [heq] at h
    have h2 : some (c, tourLen haversine start points c) = some (o, t) := h
    injection h2 with h2
    rw [Prod.mk.injEq] at h2
    obtain ⟨_, h3⟩ := h2
    rw [← h3]
    exact tourLen_nonneg start points c

end ProgramLemmas

section WitnessHelpers

theorem abs_zero_le_ninety : |(0 : ℝ)| ≤ 90 := by norm_num

theorem abs_zero_le_oneeighty : |(0 : ℝ)| ≤ 180 := by norm_num

end WitnessHelpers

section Claims

/-- C1: for every request with `N ≥ 1` destinations (the stated size bound
keeps some round trip below the code's `10**9` sentinel; each haversine leg
is at most `20069` km, so any `N ≤ 40000` qualifies),
`BruteForceAlgorithm.compute` returns a permutation of the destination
indices whose round-trip total is minimal over all permutations, and among
the minimisers it is the first in the `itertools.permutations` enumeration
order: every earlier permutation has a strictly larger total. -/
theorem bruteforce_returns_lex_first_optimum (start : GeoPoint ℝ)
    (points : List (GeoPoint ℝ)) (hN : points ≠ [])
    (hsize : points.length ≤ 40000) :
    ∃ (p : List Nat) (k : Nat),
      BruteForceAlgorithm.compute start points
          = some (p, tourLen haversine start points p) ∧
        p.Perm (List.range points.length) ∧
        (∀ q : List Nat, q.Perm (List.range points.length) →
          tourLen haversine start points p ≤ tourLen haversine start points q) ∧
        (permsLex (List.range points.length))[k]? = some p ∧
        ∀ (j : Nat) (q : List Nat), j < k →
          (permsLex (List.range points.length))[j]? = some q →
          tourLen haversine start points p < tourLen haversine start points q :=
  bf_computeD_spec haversine start points
    ⟨List.range points.length, List.Perm.refl _,
      tourLen_lt_sentinel start points _ (by simpa using hsize)⟩

theorem bruteforce_returns_lex_first_optimum_witness :
    (([((3:ℝ), (4:ℝ))] : List (GeoPoint ℝ)) ≠ []
        ∧ ([((3:ℝ), (4:ℝ))] : List (GeoPoint ℝ)).length ≤ 40000) ∧
      (∃ (p : List Nat) (k : Nat),
        BruteForceAlgorithm.compute (1, 2) [(3, 4)]
            = some (p, tourLen haversine (1, 2) [(3, 4)] p) ∧
          p.Perm (List.range ([((3:ℝ), (4:ℝ))] : List (GeoPoint ℝ)).length) ∧
          (∀ q : List Nat,
            q.Perm (List.range ([((3:ℝ), (4:ℝ))] : List (GeoPoint ℝ)).length) →
            tourLen haversine (1, 2) [(3, 4)] p
              ≤ tourLen haversine (1, 2) [(3, 4)] q) ∧
          (permsLex (List.range ([((3:ℝ), (4:ℝ))] : List (GeoPoint ℝ)).length))[k]?
              = some p ∧
          ∀ (j : Nat) (q : List Nat), j < k →
            (permsLex
              (List.range ([((3:ℝ), (4:ℝ))] : List (GeoPoint ℝ)).length))[j]?
                = some q →
            tourLen haversine (1, 2) [(3, 4)] p
              < tourLen haversine (1, 2) [(3, 4)] q) :=
  ⟨⟨by simp, by simp⟩,
    bruteforce_returns_lex_first_optimum (1, 2) [(3, 4)] (by simp) (by simp)⟩

/-- C2: for `1 ≤ N ≤ 8` the exhaustive solver's total distance is at most
the heuristic solver's total distance on the same request. -/
theorem bruteforce_total_le_heuristic_total (start : GeoPoint ℝ)
    (points : List (GeoPoint ℝ)) (h1 : 1 ≤ points.length)
    (h8 : points.length ≤ 8) :
    ∃ (o : List Nat) (t : ℝ) (o2 : List Nat) (t2 : ℝ),
      NearestNeighbourAlgorithm.compute start points = some (o, t) ∧
        BruteForceAlgorithm.compute start points = some (o2, t2) ∧ t2 ≤ t := by
  obtain ⟨Δ, hnn, hp⟩ := nn_computeD_spec haversine start points haversine_lt_sentinel
  obtain ⟨p, k, hbf, _, hmin, _, _⟩ := bf_computeD_spec haversine start points
    ⟨List.range points.length, List.Perm.refl _,
      tourLen_lt_sentinel start points _
        (by simpa using le_trans h8 (by norm_num))⟩
  refine ⟨Δ, tourLenFrom haversine start points start Δ, p,
    tourLen haversine start points p, hnn, hbf, ?_⟩
  have h := hmin Δ hp
  rwa [tourLen_eq_from haversine start points Δ] at h

theorem bruteforce_total_le_heuristic_total_witness :
    (1 ≤ ([((3:ℝ), (4:ℝ))] : List (GeoPoint ℝ)).length
        ∧ ([((3:ℝ), (4:ℝ))] : List (GeoPoint ℝ)).length ≤ 8) ∧
      (∃ (o : List Nat) (t : ℝ) (o2 : List Nat) (t2 : ℝ),
        NearestNeighbourAlgorithm.compute (1, 2) [(3, 4)] = some (o, t) ∧
          BruteForceAlgorithm.compute (1, 2) [(3, 4)] = some (o2, t2) ∧
          t2 ≤ t) :=
  ⟨⟨by simp, by simp⟩,
    bruteforce_total_le_heuristic_total (1, 2) [(3, 4)] (by simp) (by simp)⟩

/-- C3: for every request with `N ≥ 1` destinations (size bound as in C1,
needed so the exhaustive solver's sentinel is beaten), both solvers return an
order that is a permutation of `{0, ..., N-1}` — length `N`, no repeats, no
omissions. -/
theorem solvers_return_index_permutation (start : GeoPoint ℝ)
    (points : List (GeoPoint ℝ)) (hN : points ≠ [])
    (hsize : points.length ≤ 40000) :
    ∃ (o : List Nat) (t : ℝ) (o2 : List Nat) (t2 : ℝ),
      NearestNeighbourAlgorithm.compute start points = some (o, t) ∧
        o.Perm (List.range points.length) ∧
        BruteForceAlgorithm.compute start points = some (o2, t2) ∧
        o2.Perm (List.range points.length) := by
  obtain ⟨Δ, hnn, hp⟩ := nn_computeD_spec haversine start points haversine_lt_sentinel
  obtain ⟨p, k, hbf, hpp, _, _, _⟩ := bf_computeD_spec haversine start points
    ⟨List.range points.length, List.Perm.refl _,
      tourLen_lt_sentinel start points _ (by simpa using hsize)⟩
  exact ⟨Δ, tourLenFrom haversine start points start Δ, p,
    tourLen haversine start points p, hnn, hp, hbf, hpp⟩

theorem solvers_return_index_permutation_witness :
    (([((3:ℝ), (4:ℝ))] : List (GeoPoint ℝ)) ≠ []
        ∧ ([((3:ℝ), (4:ℝ))] : List (GeoPoint ℝ)).length ≤ 40000) ∧
      (∃ (o : List Nat) (t : ℝ) (o2 : List Nat) (t2 : ℝ),
        NearestNeighbourAlgorithm.compute (1, 2) [(3, 4)] = some (o, t) ∧
          o.Perm (List.range ([((3:ℝ), (4:ℝ))] : List (GeoPoint ℝ)).length) ∧
          BruteForceAlgorithm.compute (1, 2) [(3, 4)] = some (o2, t2) ∧
          o2.Perm (List.range ([((3:ℝ), (4:ℝ))] : List (GeoPoint ℝ)).length)) :=
  ⟨⟨by simp, by simp⟩,
    solvers_return_index_permutation (1, 2) [(3, 4)] (by simp) (by simp)⟩

/-- C4: for every request with `N ≥ 1` destinations the heuristic solver
produces exactly the spec's nearest-neighbour greedy result — at each step
the unvisited index at minimum haversine distance from the current position
is appended (ties to the lowest original index), and the total is the sum of
the selected legs plus the final leg back to the start (`specCompute`). -/
theorem heuristic_eq_greedy_spec (start : GeoPoint ℝ)
    (points : List (GeoPoint ℝ)) (hN : points ≠ []) :
    NearestNeighbourAlgorithm.compute start points
      = specCompute haversine start points :=
  computeD_eq_specCompute haversine start points haversine_lt_sentinel

theorem heuristic_eq_greedy_spec_witness :
    (([((3:ℝ), (4:ℝ))] : List (GeoPoint ℝ)) ≠ []) ∧
      NearestNeighbourAlgorithm.compute (1, 2) [(3, 4)]
        = specCompute haversine (1, 2) [(3, 4)] :=
  ⟨by simp, heuristic_eq_greedy_spec (1, 2) [(3, 4)] (by simp)⟩

/-- C5: haversine is symmetric, and the distance from a point to itself is
exactly `0` (in the exact-real embedding). -/
theorem haversine_symm_and_identity (a b : GeoPoint ℝ) :
    haversine a b = haversine b a ∧ haversine a a = 0 :=
  ⟨haversine_symm a b, haversine_self a⟩

/-- C6 counterexample: at the concrete empty input neither solver rejects —
both silently return the degenerate result `([], 0)` instead of an error. -/
theorem empty_input_not_rejected :
    NearestNeighbourAlgorithm.compute (0, 0) [] = some ([], 0) ∧
      BruteForceAlgorithm.compute (0, 0) [] = some ([], 0) :=
  ⟨nn_compute_empty (0, 0), bf_compute_empty (0, 0)⟩

/-- C6 (amended): with an empty destination list the tour-computation core
does not reject the input — both solvers silently return the degenerate
result `([], 0)`. -/
theorem empty_input_silently_degenerate (start : GeoPoint ℝ) :
    NearestNeighbourAlgorithm.compute start [] ≠ none ∧
      NearestNeighbourAlgorithm.compute start [] = some ([], 0) ∧
      BruteForceAlgorithm.compute start [] ≠ none ∧
      BruteForceAlgorithm.compute start [] = some ([], 0) := by
  refine ⟨?_, nn_compute_empty start, ?_, bf_compute_empty start⟩
  · rw [nn_compute_empty start]
    exact Option.some_ne_none _
  · rw [bf_compute_empty start]
    exact Option.some_ne_none _

/-- C7: with exactly one destination both solvers return the order `[0]` and
total `2 * haversine start p0`, and the two results coincide. -/
theorem single_destination_result (start p0 : GeoPoint ℝ) :
    NearestNeighbourAlgorithm.compute start [p0]
        = some ([0], 2 * haversine start p0) ∧
      BruteForceAlgorithm.compute start [p0]
        = some ([0], 2 * haversine start p0) ∧
      NearestNeighbourAlgorithm.compute start [p0]
        = BruteForceAlgorithm.compute start [p0] := by
  have h2 : haversine start p0 + haversine p0 start = 2 * haversine start p0 := by
    rw [haversine_symm p0 start]
    ring
  refine ⟨?_, ?_, ?_⟩
  · rw [nn_compute_single start p0, h2]
  · rw [bf_compute_single start p0, h2]
  · rw [nn_compute_single start p0, bf_compute_single start p0]

/-- C8: both solvers are deterministic — two invocations on an identical
start point and destination list yield identical order and total (they are
pure functions of the request). -/
theorem solvers_deterministic (s1 s2 : GeoPoint ℝ) (p1 p2 : List (GeoPoint ℝ))
    (hs : s1 = s2) (hp : p1 = p2) :
    NearestNeighbourAlgorithm.compute s1 p1
        = NearestNeighbourAlgorithm.compute s2 p2 ∧
      BruteForceAlgorithm.compute s1 p1 = BruteForceAlgorithm.compute s2 p2 := by
  subst hs
  subst hp
  exact ⟨rfl, rfl⟩

theorem solvers_deterministic_witness :
    ((((0:ℝ), (0:ℝ)) : GeoPoint ℝ) = ((0:ℝ), (0:ℝ))
        ∧ ([((1:ℝ), (1:ℝ))] : List (GeoPoint ℝ)) = [((1:ℝ), (1:ℝ))]) ∧
      (NearestNeighbourAlgorithm.compute (0, 0) [(1, 1)]
          = NearestNeighbourAlgorithm.compute (0, 0) [(1, 1)] ∧
        BruteForceAlgorithm.compute (0, 0) [(1, 1)]
          = BruteForceAlgorithm.compute (0, 0) [(1, 1)]) :=
  ⟨⟨rfl, rfl⟩, solvers_deterministic (0, 0) (0, 0) [(1, 1)] [(1, 1)] rfl rfl⟩

/-- C9: for in-range coordinates the intermediate quantity `x` of the
haversine formula lies in `[0, 1]`, so both square-root arguments `x` and
`1 - x` are nonnegative; the distance is nonnegative; and every total
returned by either solver is nonnegative. -/
theorem haversine_well_defined_and_totals_nonneg (a b : GeoPoint ℝ)
    (ha1 : |a.1| ≤ 90) (ha2 : |a.2| ≤ 180) (hb1 : |b.1| ≤ 90)
    (hb2 : |b.2| ≤ 180) (start : GeoPoint ℝ) (points : List (GeoPoint ℝ))
    (o o2 : List Nat) (t t2 : ℝ)
    (hnn : NearestNeighbourAlgorithm.compute start points = some (o, t))
    (hbf : BruteForceAlgorithm.compute start points = some (o2, t2)) :
    0 ≤ havX a b ∧ havX a b ≤ 1 ∧ 0 ≤ 1 - havX a b ∧ 0 ≤ haversine a b ∧
      0 ≤ t ∧ 0 ≤ t2 :=
  ⟨havX_nonneg ha1 hb1, havX_le_one ha1 hb1,
    sub_nonneg.mpr (havX_le_one ha1 hb1), haversine_nonneg a b,
    nn_total_nonneg start points o t hnn, bf_total_nonneg start points o2 t2 hbf⟩

theorem haversine_well_defined_and_totals_nonneg_witness :
    (|(((0:ℝ), (0:ℝ)) : GeoPoint ℝ).1| ≤ 90
        ∧ |(((0:ℝ), (0:ℝ)) : GeoPoint ℝ).2| ≤ 180
        ∧ NearestNeighbourAlgorithm.compute ((0:ℝ), (0:ℝ)) [] = some ([], 0)
        ∧ BruteForceAlgorithm.compute ((0:ℝ), (0:ℝ)) [] = some ([], 0)) ∧
      (0 ≤ havX (0, 0) (0, 0) ∧ havX (0, 0) (0, 0) ≤ 1 ∧
        0 ≤ 1 - havX (0, 0) (0, 0) ∧ 0 ≤ haversine (0, 0) (0, 0) ∧
        0 ≤ (0 : ℝ) ∧ 0 ≤ (0 : ℝ)) :=
  ⟨⟨abs_zero_le_ninety, abs_zero_le_oneeighty,
      nn_compute_empty (0, 0), bf_compute_empty (0, 0)⟩,
    haversine_well_defined_and_totals_nonneg (0, 0) (0, 0)
      abs_zero_le_ninety abs_zero_le_oneeighty abs_zero_le_ninety
      abs_zero_le_oneeighty (0, 0) [] [] [] 0 0
      (nn_compute_empty (0, 0)) (bf_compute_empty (0, 0))⟩

/-- C10: with an empty destination list the heuristic solver's loop body
never runs and the exhaustive solver evaluates the single empty permutation;
both return `([], 0)` and neither raises an error. -/
theorem empty_input_degenerate_result (start : GeoPoint ℝ) :
    NearestNeighbourAlgorithm.compute start [] = some ([], 0) ∧
      BruteForceAlgorithm.compute start [] = some ([], 0) :=
  ⟨nn_compute_empty start, bf_compute_empty start⟩

end Claims
